import Mathlib

/-!
Verification of the `banker` transaction-processing core.

The bank orchestration layer is embedded from `src/bank.rs`.  The `Account`
and `Amount` types live in `account.rs` / `amount.rs`, which are not part of
the provided sources; those are modelled from the specification (design
document §3 and §4.1).  Rust `HashMap`s are modelled as association lists
with unique keys (insert replaces an existing binding, remove deletes it).
-/

/-- `pub type AccountID = u16;` — client identifiers are only compared for
equality, so `Nat` is an adequate model. -/
abbrev AccountID := Nat

/-- `pub type TransactionID = u32;` — transaction identifiers are only
compared for equality, so `Nat` is an adequate model. -/
abbrev TransactionID := Nat

/-- Modelled from the spec: `Amount` (from the missing `amount.rs`) is a
fixed-point 4-decimal-place monetary value "stored as scaled integer
internally", supporting addition, subtraction and comparison.  We model it as
the scaled integer itself. -/
abbrev Amount := Int

/-- The five transaction kinds of `transaction::Kind`. -/
inductive Kind where
  | Deposit
  | Withdrawal
  | Dispute
  | Resolve
  | Chargeback
deriving DecidableEq, Repr

/-- Modelled from the spec: a transaction record (from the missing
`transaction.rs`) carries a kind, a client ID, a transaction ID, and an
optional amount ("present for Deposit/Withdrawal, absent for the three
dispute-lifecycle kinds", though nothing forces that shape on input).
`bank.rs` accesses exactly these via `kind()`, `client()`, `id()`,
`amount()`. -/
structure Transaction where
  kind : Kind
  client : AccountID
  id : TransactionID
  amount : Option Amount
deriving DecidableEq, Repr

/-- The error taxonomy of the spec (§7), as far as the account operations
need it. -/
inductive AccountError where
  | insufficientFunds
  | insufficientAvailableFunds
  | insufficientHeldFunds
  | accountLocked
deriving DecidableEq, Repr

/-- Modelled from the spec: an account (from the missing `account.rs`) has
`available` funds, `held` funds and a `locked` flag (§3). -/
structure Account where
  available : Amount
  held : Amount
  locked : Bool
deriving DecidableEq, Repr

namespace Account

/-- `Account::new`: a fresh account with zero balances, unlocked. -/
def new : Account := { available := 0, held := 0, locked := false }

/-- `account.total()` — derived: `total = available + held` (spec §3). -/
def total (a : Account) : Amount := a.available + a.held

/-- `account.is_locked()`. -/
def isLocked (a : Account) : Bool := a.locked

/-- Modelled from the spec (§4.1): `credit(amount)`: `available += amount`,
no failure mode.  Per §9 the source does **not** enforce a lock check on
deposit, so `credit` succeeds on a locked account as well. -/
def credit (a : Account) (x : Amount) : Account :=
  { a with available := a.available + x }

/-- Modelled from the spec (§4.1): `try_debit` succeeds iff
`available >= amount` and the account is not locked; on success
`available -= amount`. -/
def tryDebit (a : Account) (x : Amount) : Except AccountError Account :=
  if a.locked then .error .accountLocked
  else if a.available < x then .error .insufficientFunds
  else .ok { a with available := a.available - x }

/-- Modelled from the spec (§4.1): `try_dispute` moves `amount` from
`available` to `held`; fails with `InsufficientAvailableFunds` if
`available < amount`. -/
def tryDispute (a : Account) (x : Amount) : Except AccountError Account :=
  if a.available < x then .error .insufficientAvailableFunds
  else .ok { a with available := a.available - x, held := a.held + x }

/-- Modelled from the spec (§4.1): `try_resolve` reverses a dispute:
`held -= amount; available += amount`; fails with `InsufficientHeldFunds`
if `held < amount`. -/
def tryResolve (a : Account) (x : Amount) : Except AccountError Account :=
  if a.held < x then .error .insufficientHeldFunds
  else .ok { a with available := a.available + x, held := a.held - x }

/-- Modelled from the spec (§4.1): `try_chargeback` finalizes a dispute:
`held -= amount; locked = true`; fails with `InsufficientHeldFunds` if
`held < amount`. -/
def tryChargeback (a : Account) (x : Amount) : Except AccountError Account :=
  if a.held < x then .error .insufficientHeldFunds
  else .ok { a with held := a.held - x, locked := true }

end Account

/-! ### Association-list model of `HashMap` -/

/-- `HashMap::get`: first binding of key `k` (keys are unique in any map
built by these operations, mirroring `HashMap`). -/
def findA {α : Type} (m : List (Nat × α)) (k : Nat) : Option α :=
  match m with
  | [] => none
  | (k', v) :: rest => if k = k' then some v else findA rest k

/-- `HashMap::insert`: replace the binding of `k` if present, else append. -/
def insertA {α : Type} (m : List (Nat × α)) (k : Nat) (v : α) : List (Nat × α) :=
  match m with
  | [] => [(k, v)]
  | (k', v') :: rest =>
      if k = k' then (k, v) :: rest else (k', v') :: insertA rest k v

/-- `HashMap::remove` (the map part): delete the binding of `k`. -/
def eraseA {α : Type} (m : List (Nat × α)) (k : Nat) : List (Nat × α) :=
  match m with
  | [] => []
  | (k', v') :: rest => if k = k' then rest else (k', v') :: eraseA rest k

/-! ### The bank (`src/bank.rs`) -/

/-- `struct Bank`: accounts by client ID, deposit history by transaction ID,
ongoing disputes by transaction ID. -/
structure Bank where
  accounts : List (AccountID × Account)
  transactions : List (TransactionID × Transaction)
  disputes : List (TransactionID × Transaction)
deriving DecidableEq, Repr

namespace Bank

/-- `Bank::new`. -/
def new : Bank := { accounts := [], transactions := [], disputes := [] }

/-- `Bank::accounts_iter`: the reported snapshot rows
`(id, available, held, total, locked)`. -/
def accountsIter (b : Bank) : List (AccountID × Amount × Amount × Amount × Bool) :=
  b.accounts.map fun p => (p.1, p.2.available, p.2.held, p.2.total, p.2.isLocked)

/-- `Bank::process_deposit`: if the amount is absent the record is silently
skipped; otherwise the account is fetched or lazily created
(`entry(..).or_insert_with(Account::new)`), credited, and the transaction is
recorded in the deposit history. -/
def processDeposit (b : Bank) (t : Transaction) : Bank :=
  match t.amount with
  | none => b
  | some x =>
      let acc := (findA b.accounts t.client).getD Account.new
      { b with
        accounts := insertA b.accounts t.client (acc.credit x),
        transactions := insertA b.transactions t.id t }

/-- `Bank::process_withdrawl`: silently skipped when the account or the
amount is missing; otherwise `try_debit`, whose error is discarded. -/
def processWithdrawl (b : Bank) (t : Transaction) : Bank :=
  match findA b.accounts t.client with
  | none => b
  | some acc =>
      match t.amount with
      | none => b
      | some x =>
          match acc.tryDebit x with
          | .error _ => b
          | .ok acc' => { b with accounts := insertA b.accounts t.client acc' }

/-- `Bank::process_dispute`: look the referenced transaction up in the
deposit history, find the account of *that* transaction's client, attempt
`try_dispute` with the original amount (`amount().unwrap()`, modelled with
default `0`; the reachability invariant shows the default branch is never
taken), and on success record the original transaction under the ongoing
disputes.  There is no check against the `disputes` map, so an already
disputed transaction can be disputed again. -/
def processDispute (b : Bank) (t : Transaction) : Bank :=
  match findA b.transactions t.id with
  | none => b
  | some old =>
      match findA b.accounts old.client with
      | none => b
      | some acc =>
          match acc.tryDispute (old.amount.getD 0) with
          | .error _ => b
          | .ok acc' =>
              { b with
                accounts := insertA b.accounts old.client acc',
                disputes := insertA b.disputes t.id old }

/-- `Bank::process_resolve`: `disputes.remove` first — the entry is removed
as soon as it is found, whatever happens afterwards — then `try_resolve` on
the disputed transaction's client's account, error discarded. -/
def processResolve (b : Bank) (t : Transaction) : Bank :=
  match findA b.disputes t.id with
  | none => b
  | some old =>
      let b' := { b with disputes := eraseA b.disputes t.id }
      match findA b'.accounts old.client with
      | none => b'
      | some acc =>
          match acc.tryResolve (old.amount.getD 0) with
          | .error _ => b'
          | .ok acc' => { b' with accounts := insertA b'.accounts old.client acc' }

/-- `Bank::process_chargeback`: same shape as `process_resolve`, with
`try_chargeback`. -/
def processChargeback (b : Bank) (t : Transaction) : Bank :=
  match findA b.disputes t.id with
  | none => b
  | some old =>
      let b' := { b with disputes := eraseA b.disputes t.id }
      match findA b'.accounts old.client with
      | none => b'
      | some acc =>
          match acc.tryChargeback (old.amount.getD 0) with
          | .error _ => b'
          | .ok acc' => { b' with accounts := insertA b'.accounts old.client acc' }

/-- `Bank::process_transaction`: dispatch on the transaction kind. -/
def processTransaction (b : Bank) (t : Transaction) : Bank :=
  match t.kind with
  | .Deposit => b.processDeposit t
  | .Withdrawal => b.processWithdrawl t
  | .Dispute => b.processDispute t
  | .Resolve => b.processResolve t
  | .Chargeback => b.processChargeback t

/-- Processing a finite stream of transactions in arrival order, starting
from `Bank::new`. -/
def processAll (ts : List Transaction) : Bank :=
  ts.foldl processTransaction Bank.new

end Bank

example :
    Bank.accountsIter (Bank.processAll
      [{ kind := .Deposit, client := 1, id := 1, amount := some 10000 }]) =
    [(1, 10000, 0, 10000, false)] := by decide

/-! ### Lemmas about the association-list map operations -/

theorem findA_insertA_self {α : Type} (m : List (Nat × α)) (k : Nat) (v : α) :
    findA (insertA m k v) k = some v := by
  induction m with
  | nil => simp [insertA, findA]
  | cons p rest ih =>
      obtain ⟨k', v'⟩ := p
      by_cases h : k = k' <;> simp [insertA, findA, h, ih]

theorem findA_insertA_ne {α : Type} (m : List (Nat × α)) (k k' : Nat) (v : α)
    (h : k' ≠ k) : findA (insertA m k v) k' = findA m k' := by
  induction m with
  | nil => simp [insertA, findA, h]
  | cons p rest ih =>
      obtain ⟨k₀, v₀⟩ := p
      by_cases hk : k = k₀
      · subst hk
        simp [insertA, findA, h]
      · by_cases hk' : k' = k₀ <;> simp [insertA, findA, hk, hk', ih]

theorem mem_insertA {α : Type} {m : List (Nat × α)} {k : Nat} {v : α}
    {p : Nat × α} (h : p ∈ insertA m k v) : p = (k, v) ∨ p ∈ m := by
  induction m with
  | nil =>
      simp only [insertA, List.mem_singleton] at h
      exact Or.inl h
  | cons q rest ih =>
      obtain ⟨k₀, v₀⟩ := q
      by_cases hk : k = k₀
      · simp only [insertA, if_pos hk, List.mem_cons] at h
        rcases h with h | h
        · exact Or.inl h
        · exact Or.inr (List.mem_cons_of_mem _ h)
      · simp only [insertA, if_neg hk, List.mem_cons] at h
        rcases h with h | h
        · exact Or.inr (h ▸ List.mem_cons_self _ _)
        · rcases ih h with h' | h'
          · exact Or.inl h'
          · exact Or.inr (List.mem_cons_of_mem _ h')

theorem mem_eraseA {α : Type} {m : List (Nat × α)} {k : Nat} {p : Nat × α}
    (h : p ∈ eraseA m k) : p ∈ m := by
  induction m with
  | nil => simp [eraseA] at h
  | cons q rest ih =>
      obtain ⟨k₀, v₀⟩ := q
      by_cases hk : k = k₀
      · simp only [eraseA, if_pos hk] at h
        exact List.mem_cons_of_mem _ h
      · simp only [eraseA, if_neg hk, List.mem_cons] at h
        rcases h with h | h
        · exact h ▸ List.mem_cons_self _ _
        · exact List.mem_cons_of_mem _ (ih h)

theorem findA_mem {α : Type} {m : List (Nat × α)} {k : Nat} {v : α}
    (h : findA m k = some v) : (k, v) ∈ m := by
  induction m with
  | nil => simp [findA] at h
  | cons q rest ih =>
      obtain ⟨k₀, v₀⟩ := q
      by_cases hk : k = k₀
      · simp only [findA, if_pos hk] at h
        subst hk
        obtain rfl : v₀ = v := Option.some.inj h
        exact List.mem_cons_self _ _
      · simp only [findA, if_neg hk] at h
        exact List.mem_cons_of_mem _ (ih h)

/-- On a map with unique keys — which every `HashMap`-built map has —
erasing a key makes it unfindable. -/
theorem findA_eraseA_self {α : Type} {m : List (Nat × α)} {k : Nat}
    (h : (m.map Prod.fst).Nodup) : findA (eraseA m k) k = none := by
  induction m with
  | nil => simp [eraseA, findA]
  | cons q rest ih =>
      obtain ⟨k₀, v₀⟩ := q
      simp only [List.map_cons, List.nodup_cons] at h
      by_cases hk : k = k₀
      · subst hk
        simp only [eraseA, if_pos rfl]
        cases hf : findA rest k with
        | none => exact hf
        | some v => exact absurd (List.mem_map_of_mem Prod.fst (findA_mem hf)) h.1
      · simp [eraseA, findA, hk, ih h.2]

/-! ### Account-level invariant lemmas -/

/-- A well-formed account: non-negative available and held balances. -/
def AccountOk (a : Account) : Prop := 0 ≤ a.available ∧ 0 ≤ a.held

theorem accountOk_new : AccountOk Account.new := by
  constructor <;> simp [Account.new]

theorem accountOk_credit {a : Account} {x : Amount} (ha : AccountOk a)
    (hx : 0 ≤ x) : AccountOk (a.credit x) := by
  obtain ⟨h1, h2⟩ := ha
  exact ⟨by simpa [Account.credit] using add_nonneg h1 hx, by simpa [Account.credit] using h2⟩

theorem accountOk_tryDebit {a a' : Account} {x : Amount}
    (h : a.tryDebit x = .ok a') (ha : AccountOk a) : AccountOk a' := by
  obtain ⟨h1, h2⟩ := ha
  by_cases hl : a.locked
  · simp [Account.tryDebit, hl] at h
  · by_cases hlt : a.available < x
    · simp [Account.tryDebit, hl, hlt] at h
    · rw [Account.tryDebit, if_neg hl, if_neg hlt] at h
      obtain rfl := Except.ok.inj h
      exact ⟨sub_nonneg.mpr (le_of_not_lt hlt), h2⟩

theorem accountOk_tryDispute {a a' : Account} {x : Amount}
    (h : a.tryDispute x = .ok a') (ha : AccountOk a) (hx : 0 ≤ x) :
    AccountOk a' := by
  obtain ⟨h1, h2⟩ := ha
  by_cases hlt : a.available < x
  · simp [Account.tryDispute, hlt] at h
  · rw [Account.tryDispute, if_neg hlt] at h
    obtain rfl := Except.ok.inj h
    exact ⟨sub_nonneg.mpr (le_of_not_lt hlt), add_nonneg h2 hx⟩

theorem accountOk_tryResolve {a a' : Account} {x : Amount}
    (h : a.tryResolve x = .ok a') (ha : AccountOk a) (hx : 0 ≤ x) :
    AccountOk a' := by
  obtain ⟨h1, h2⟩ := ha
  by_cases hlt : a.held < x
  · simp [Account.tryResolve, hlt] at h
  · rw [Account.tryResolve, if_neg hlt] at h
    obtain rfl := Except.ok.inj h
    exact ⟨add_nonneg h1 hx, sub_nonneg.mpr (le_of_not_lt hlt)⟩

theorem accountOk_tryChargeback {a a' : Account} {x : Amount}
    (h : a.tryChargeback x = .ok a') (ha : AccountOk a) : AccountOk a' := by
  obtain ⟨h1, h2⟩ := ha
  by_cases hlt : a.held < x
  · simp [Account.tryChargeback, hlt] at h
  · rw [Account.tryChargeback, if_neg hlt] at h
    obtain rfl := Except.ok.inj h
    exact ⟨h1, sub_nonneg.mpr (le_of_not_lt hlt)⟩

/-! ### The reachability invariant of the bank -/

/-- A stored transaction is usable by the dispute lifecycle: its amount
field is present, and the amount is non-negative. -/
def TxOk (t : Transaction) : Prop := ∃ x, t.amount = some x ∧ 0 ≤ x

/-- The inductive invariant: every account has non-negative balances, and
every record in the deposit history and the active-dispute index carries a
present, non-negative amount. -/
def BankInv (b : Bank) : Prop :=
  (∀ p ∈ b.accounts, AccountOk p.2) ∧
  (∀ p ∈ b.transactions, TxOk p.2) ∧
  (∀ p ∈ b.disputes, TxOk p.2)

theorem bankInv_new : BankInv Bank.new := by
  refine ⟨?_, ?_, ?_⟩ <;> intro p hp <;> simp [Bank.new] at hp

theorem bankInv_processDeposit {b : Bank} {t : Transaction} (hb : BankInv b)
    (ht : 0 ≤ t.amount.getD 0) : BankInv (b.processDeposit t) := by
  obtain ⟨hacc, htx, hdis⟩ := hb
  cases hamt : t.amount with
  | none =>
      simp only [Bank.processDeposit, hamt]
      exact ⟨hacc, htx, hdis⟩
  | some x =>
      have hx : 0 ≤ x := by rw [hamt] at ht; simpa using ht
      simp only [Bank.processDeposit, hamt]
      refine ⟨?_, ?_, hdis⟩
      · intro p hp
        rcases mem_insertA hp with rfl | hp'
        · cases hf : findA b.accounts t.client with
          | none => simpa [hf] using accountOk_credit accountOk_new hx
          | some a0 => simpa [hf] using accountOk_credit (hacc _ (findA_mem hf)) hx
        · exact hacc p hp'
      · intro p hp
        rcases mem_insertA hp with rfl | hp'
        · exact ⟨x, hamt, hx⟩
        · exact htx p hp'

theorem bankInv_processWithdrawl {b : Bank} {t : Transaction} (hb : BankInv b) :
    BankInv (b.processWithdrawl t) := by
  obtain ⟨hacc, htx, hdis⟩ := hb
  cases hf : findA b.accounts t.client with
  | none =>
      simp only [Bank.processWithdrawl, hf]
      exact ⟨hacc, htx, hdis⟩
  | some acc =>
      cases hamt : t.amount with
      | none =>
          simp only [Bank.processWithdrawl, hf, hamt]
          exact ⟨hacc, htx, hdis⟩
      | some x =>
          cases hd : acc.tryDebit x with
          | error e =>
              simp only [Bank.processWithdrawl, hf, hamt, hd]
              exact ⟨hacc, htx, hdis⟩
          | ok acc' =>
              simp only [Bank.processWithdrawl, hf, hamt, hd]
              refine ⟨?_, htx, hdis⟩
              intro p hp
              rcases mem_insertA hp with rfl | hp'
              · exact accountOk_tryDebit hd (hacc _ (findA_mem hf))
              · exact hacc p hp'

theorem bankInv_processDispute {b : Bank} {t : Transaction} (hb : BankInv b) :
    BankInv (b.processDispute t) := by
  obtain ⟨hacc, htx, hdis⟩ := hb
  cases hf : findA b.transactions t.id with
  | none =>
      simp only [Bank.processDispute, hf]
      exact ⟨hacc, htx, hdis⟩
  | some old =>
      obtain ⟨y, hy, hy0⟩ := htx _ (findA_mem hf)
      have hy0' : 0 ≤ old.amount.getD 0 := by rw [hy]; simpa using hy0
      cases hfa : findA b.accounts old.client with
      | none =>
          simp only [Bank.processDispute, hf, hfa]
          exact ⟨hacc, htx, hdis⟩
      | some acc =>
          cases hdp : acc.tryDispute (old.amount.getD 0) with
          | error e =>
              simp only [Bank.processDispute, hf, hfa, hdp]
              exact ⟨hacc, htx, hdis⟩
          | ok acc' =>
              simp only [Bank.processDispute, hf, hfa, hdp]
              refine ⟨?_, htx, ?_⟩
              · intro p hp
                rcases mem_insertA hp with rfl | hp'
                · exact accountOk_tryDispute hdp (hacc _ (findA_mem hfa)) hy0'
                · exact hacc p hp'
              · intro p hp
                rcases mem_insertA hp with rfl | hp'
                · exact ⟨y, hy, hy0⟩
                · exact hdis p hp'

theorem bankInv_processResolve {b : Bank} {t : Transaction} (hb : BankInv b) :
    BankInv (b.processResolve t) := by
  obtain ⟨hacc, htx, hdis⟩ := hb
  cases hf : findA b.disputes t.id with
  | none =>
      simp only [Bank.processResolve, hf]
      exact ⟨hacc, htx, hdis⟩
  | some old =>
      obtain ⟨y, hy, hy0⟩ := hdis _ (findA_mem hf)
      have hy0' : 0 ≤ old.amount.getD 0 := by rw [hy]; simpa using hy0
      have hdis' : ∀ p ∈ eraseA b.disputes t.id, TxOk p.2 :=
        fun p hp => hdis p (mem_eraseA hp)
      cases hfa : findA b.accounts old.client with
      | none =>
          simp only [Bank.processResolve, hf, hfa]
          exact ⟨hacc, htx, hdis'⟩
      | some acc =>
          cases hr : acc.tryResolve (old.amount.getD 0) with
          | error e =>
              simp only [Bank.processResolve, hf, hfa, hr]
              exact ⟨hacc, htx, hdis'⟩
          | ok acc' =>
              simp only [Bank.processResolve, hf, hfa, hr]
              refine ⟨?_, htx, hdis'⟩
              intro p hp
              rcases mem_insertA hp with rfl | hp'
              · exact accountOk_tryResolve hr (hacc _ (findA_mem hfa)) hy0'
              · exact hacc p hp'

theorem bankInv_processChargeback {b : Bank} {t : Transaction} (hb : BankInv b) :
    BankInv (b.processChargeback t) := by
  obtain ⟨hacc, htx, hdis⟩ := hb
  cases hf : findA b.disputes t.id with
  | none =>
      simp only [Bank.processChargeback, hf]
      exact ⟨hacc, htx, hdis⟩
  | some old =>
      have hdis' : ∀ p ∈ eraseA b.disputes t.id, TxOk p.2 :=
        fun p hp => hdis p (mem_eraseA hp)
      cases hfa : findA b.accounts old.client with
      | none =>
          simp only [Bank.processChargeback, hf, hfa]
          exact ⟨hacc, htx, hdis'⟩
      | some acc =>
          cases hc : acc.tryChargeback (old.amount.getD 0) with
          | error e =>
              simp only [Bank.processChargeback, hf, hfa, hc]
              exact ⟨hacc, htx, hdis'⟩
          | ok acc' =>
              simp only [Bank.processChargeback, hf, hfa, hc]
              refine ⟨?_, htx, hdis'⟩
              intro p hp
              rcases mem_insertA hp with rfl | hp'
              · exact accountOk_tryChargeback hc (hacc _ (findA_mem hfa))
              · exact hacc p hp'

theorem bankInv_processTransaction {b : Bank} {t : Transaction} (hb : BankInv b)
    (ht : 0 ≤ t.amount.getD 0) : BankInv (b.processTransaction t) := by
  cases hk : t.kind with
  | Deposit =>
      simp only [Bank.processTransaction, hk]
      exact bankInv_processDeposit hb ht
  | Withdrawal =>
      simp only [Bank.processTransaction, hk]
      exact bankInv_processWithdrawl hb
  | Dispute =>
      simp only [Bank.processTransaction, hk]
      exact bankInv_processDispute hb
  | Resolve =>
      simp only [Bank.processTransaction, hk]
      exact bankInv_processResolve hb
  | Chargeback =>
      simp only [Bank.processTransaction, hk]
      exact bankInv_processChargeback hb

theorem bankInv_foldl (ts : List Transaction) (b : Bank) (hb : BankInv b)
    (h : ∀ t ∈ ts, 0 ≤ t.amount.getD 0) :
    BankInv (ts.foldl Bank.processTransaction b) := by
  induction ts generalizing b with
  | nil => simpa using hb
  | cons t rest ih =>
      simp only [List.foldl_cons]
      exact ih _ (bankInv_processTransaction hb (h t (List.mem_cons_self _ _)))
        (fun t' ht' => h t' (List.mem_cons_of_mem _ ht'))

theorem bankInv_processAll (ts : List Transaction)
    (h : ∀ t ∈ ts, 0 ≤ t.amount.getD 0) : BankInv (Bank.processAll ts) :=
  bankInv_foldl ts Bank.new bankInv_new h

/-! ### Presence of amounts in the stored maps (for any input stream) -/

/-- Every record in the deposit history and in the active-dispute index has
a present amount field.  Unlike `BankInv`, this holds for arbitrary input
streams. -/
def AmountsPresent (b : Bank) : Prop :=
  (∀ p ∈ b.transactions, p.2.amount.isSome = true) ∧
  (∀ p ∈ b.disputes, p.2.amount.isSome = true)

theorem amountsPresent_processTransaction {b : Bank} {t : Transaction}
    (hb : AmountsPresent b) : AmountsPresent (b.processTransaction t) := by
  obtain ⟨htx, hdis⟩ := hb
  cases hk : t.kind with
  | Deposit =>
      simp only [Bank.processTransaction, hk]
      cases hamt : t.amount with
      | none =>
          simp only [Bank.processDeposit, hamt]
          exact ⟨htx, hdis⟩
      | some x =>
          simp only [Bank.processDeposit, hamt]
          refine ⟨?_, hdis⟩
          intro p hp
          rcases mem_insertA hp with rfl | hp'
          · simp [hamt]
          · exact htx p hp'
  | Withdrawal =>
      simp only [Bank.processTransaction, hk]
      cases hf : findA b.accounts t.client with
      | none =>
          simp only [Bank.processWithdrawl, hf]
          exact ⟨htx, hdis⟩
      | some acc =>
          cases hamt : t.amount with
          | none =>
              simp only [Bank.processWithdrawl, hf, hamt]
              exact ⟨htx, hdis⟩
          | some x =>
              cases hd : acc.tryDebit x with
              | error e =>
                  simp only [Bank.processWithdrawl, hf, hamt, hd]
                  exact ⟨htx, hdis⟩
              | ok acc' =>
                  simp only [Bank.processWithdrawl, hf, hamt, hd]
                  exact ⟨htx, hdis⟩
  | Dispute =>
      simp only [Bank.processTransaction, hk]
      cases hf : findA b.transactions t.id with
      | none =>
          simp only [Bank.processDispute, hf]
          exact ⟨htx, hdis⟩
      | some old =>
          have hold := htx _ (findA_mem hf)
          cases hfa : findA b.accounts old.client with
          | none =>
              simp only [Bank.processDispute, hf, hfa]
              exact ⟨htx, hdis⟩
          | some acc =>
              cases hdp : acc.tryDispute (old.amount.getD 0) with
              | error e =>
                  simp only [Bank.processDispute, hf, hfa, hdp]
                  exact ⟨htx, hdis⟩
              | ok acc' =>
                  simp only [Bank.processDispute, hf, hfa, hdp]
                  refine ⟨htx, ?_⟩
                  intro p hp
                  rcases mem_insertA hp with rfl | hp'
                  · exact hold
                  · exact hdis p hp'
  | Resolve =>
      simp only [Bank.processTransaction, hk]
      have hdis' : ∀ p ∈ eraseA b.disputes t.id, p.2.amount.isSome = true :=
        fun p hp => hdis p (mem_eraseA hp)
      cases hf : findA b.disputes t.id with
      | none =>
          simp only [Bank.processResolve, hf]
          exact ⟨htx, hdis⟩
      | some old =>
          cases hfa : findA b.accounts old.client with
          | none =>
              simp only [Bank.processResolve, hf, hfa]
              exact ⟨htx, hdis'⟩
          | some acc =>
              cases hr : acc.tryResolve (old.amount.getD 0) with
              | error e =>
                  simp only [Bank.processResolve, hf, hfa, hr]
                  exact ⟨htx, hdis'⟩
              | ok acc' =>
                  simp only [Bank.processResolve, hf, hfa, hr]
                  exact ⟨htx, hdis'⟩
  | Chargeback =>
      simp only [Bank.processTransaction, hk]
      have hdis' : ∀ p ∈ eraseA b.disputes t.id, p.2.amount.isSome = true :=
        fun p hp => hdis p (mem_eraseA hp)
      cases hf : findA b.disputes t.id with
      | none =>
          simp only [Bank.processChargeback, hf]
          exact ⟨htx, hdis⟩
      | some old =>
          cases hfa : findA b.accounts old.client with
          | none =>
              simp only [Bank.processChargeback, hf, hfa]
              exact ⟨htx, hdis'⟩
          | some acc =>
              cases hc : acc.tryChargeback (old.amount.getD 0) with
              | error e =>
                  simp only [Bank.processChargeback, hf, hfa, hc]
                  exact ⟨htx, hdis'⟩
              | ok acc' =>
                  simp only [Bank.processChargeback, hf, hfa, hc]
                  exact ⟨htx, hdis'⟩

theorem amountsPresent_foldl (ts : List Transaction) (b : Bank)
    (hb : AmountsPresent b) :
    AmountsPresent (ts.foldl Bank.processTransaction b) := by
  induction ts generalizing b with
  | nil => simpa using hb
  | cons t rest ih =>
      simp only [List.foldl_cons]
      exact ih _ (amountsPresent_processTransaction hb)

theorem amountsPresent_new : AmountsPresent Bank.new := by
  refine ⟨?_, ?_⟩ <;> intro p hp <;> simp [Bank.new] at hp

/-! ### Helper lemmas for resolve/chargeback -/

/-- When a Resolve finds its transaction ID among the active disputes, the
resulting dispute index is exactly the old one with that entry erased,
whatever happens to the account afterwards. -/
theorem processResolve_disputes_eq {b : Bank} {t old : Transaction}
    (h : findA b.disputes t.id = some old) :
    (b.processResolve t).disputes = eraseA b.disputes t.id := by
  simp only [Bank.processResolve, h]
  cases hfa : findA b.accounts old.client with
  | none => simp
  | some acc =>
      cases hr : acc.tryResolve (old.amount.getD 0) with
      | error e => simp [hr]
      | ok acc' => simp [hr]

/-- Chargeback analogue of `processResolve_disputes_eq`. -/
theorem processChargeback_disputes_eq {b : Bank} {t old : Transaction}
    (h : findA b.disputes t.id = some old) :
    (b.processChargeback t).disputes = eraseA b.disputes t.id := by
  simp only [Bank.processChargeback, h]
  cases hfa : findA b.accounts old.client with
  | none => simp
  | some acc =>
      cases hc : acc.tryChargeback (old.amount.getD 0) with
      | error e => simp [hc]
      | ok acc' => simp [hc]

/-! ### The claims -/

/-- C1: for every account reachable by processing any finite sequence of
transactions (with validated non-negative monetary amounts) through
`process_transaction` starting from a new `Bank`, at every point the account
satisfies `available + held == total`, `available >= 0` and `held >= 0`, as
observed through `accounts_iter`. -/
theorem C1_account_invariants (ts : List Transaction)
    (h : ∀ t ∈ ts, 0 ≤ t.amount.getD 0) :
    ∀ cid av hd tot lk,
      (cid, av, hd, tot, lk) ∈ Bank.accountsIter (Bank.processAll ts) →
      av + hd = tot ∧ 0 ≤ av ∧ 0 ≤ hd := by
  intro cid av hd tot lk hmem
  obtain ⟨hacc, -, -⟩ := bankInv_processAll ts h
  simp only [Bank.accountsIter, List.mem_map] at hmem
  obtain ⟨p, hp, heq⟩ := hmem
  obtain ⟨h1, h2, h3, h4, h5⟩ :
      p.1 = cid ∧ p.2.available = av ∧ p.2.held = hd ∧
        p.2.total = tot ∧ p.2.isLocked = lk := by
    simpa [Prod.ext_iff] using heq
  obtain ⟨hok1, hok2⟩ := hacc p hp
  subst h2
  subst h3
  subst h4
  exact ⟨by simp [Account.total], hok1, hok2⟩

/-- Witness for C1: the stream with a single deposit of 10000 for client 1
produces the snapshot row `(1, 10000, 0, 10000, false)`, which satisfies the
invariants. -/
theorem C1_account_invariants_witness :
    (1, (10000 : Amount), (0 : Amount), (10000 : Amount), false) ∈
      Bank.accountsIter (Bank.processAll
        [{ kind := .Deposit, client := 1, id := 1, amount := some 10000 }]) ∧
    ((10000 : Amount) + 0 = 10000 ∧ (0 : Amount) ≤ 10000 ∧ (0 : Amount) ≤ 0) :=
  ⟨by decide,
    C1_account_invariants
      [{ kind := .Deposit, client := 1, id := 1, amount := some 10000 }]
      (by decide) 1 10000 0 10000 false (by decide)⟩

/-- C10: in every `Bank` state reachable from a new `Bank` via
`process_transaction`, every transaction stored in the deposit-history map
and every transaction stored in the active-dispute map has a present (Some)
amount field, so the `amount().unwrap()` calls in `process_dispute`,
`process_resolve` and `process_chargeback` never hit the `None` branch. -/
theorem C10_stored_amounts_present (ts : List Transaction) :
    (∀ p ∈ (Bank.processAll ts).transactions, p.2.amount.isSome = true) ∧
    (∀ p ∈ (Bank.processAll ts).disputes, p.2.amount.isSome = true) :=
  amountsPresent_foldl ts Bank.new amountsPresent_new

/-- Witness for C10: after a deposit-and-dispute stream, the entries of both
maps have present amounts. -/
theorem C10_stored_amounts_present_witness :
    ((1 : TransactionID),
      ({ kind := .Deposit, client := 1, id := 1, amount := some 7 } : Transaction)) ∈
      (Bank.processAll
        [{ kind := .Deposit, client := 1, id := 1, amount := some 7 },
         { kind := .Dispute, client := 1, id := 1, amount := none }]).transactions ∧
    (Option.isSome (some (7 : Amount)) = true) :=
  ⟨by decide,
    (C10_stored_amounts_present
        [{ kind := .Deposit, client := 1, id := 1, amount := some 7 },
         { kind := .Dispute, client := 1, id := 1, amount := none }]).1
      ((1 : TransactionID),
        ({ kind := .Deposit, client := 1, id := 1, amount := some 7 } : Transaction))
      (by decide)⟩

/-- C4: a Resolve or Chargeback whose transaction ID has no entry in the
active-dispute index leaves the bank — in particular every account's
available, held and locked state — completely unchanged. -/
theorem C4_no_active_dispute_noop (b : Bank) (t : Transaction)
    (h : findA b.disputes t.id = none) :
    b.processResolve t = b ∧ b.processChargeback t = b := by
  constructor
  · simp only [Bank.processResolve, h]
  · simp only [Bank.processChargeback, h]

/-- Witness for C4: on a fresh bank no dispute is active, so a Resolve and a
Chargeback referencing transaction 1 change nothing. -/
theorem C4_no_active_dispute_noop_witness :
    Bank.processResolve Bank.new
        { kind := .Resolve, client := 1, id := 1, amount := none } = Bank.new ∧
    Bank.processChargeback Bank.new
        { kind := .Resolve, client := 1, id := 1, amount := none } = Bank.new :=
  C4_no_active_dispute_noop Bank.new
    { kind := .Resolve, client := 1, id := 1, amount := none } (by decide)

/-- C6: what the code actually does with a Deposit whose amount is absent —
`process_transaction` silently skips it, leaving the bank unchanged and
signalling nothing (there is no error channel at all), instead of rejecting
it with `MalformedTransaction`. -/
theorem C6_missing_amount_silently_skipped :
    Bank.processTransaction Bank.new
      { kind := .Deposit, client := 1, id := 1, amount := none } = Bank.new := by
  decide

/-- C7: what the code actually does with a Withdrawal for an unknown client —
no account is created (the accounts map is unchanged: the whole bank is
returned as-is), but nothing is signalled either (there is no error
channel), instead of reporting `UnknownAccount`. -/
theorem C7_unknown_account_silently_skipped :
    Bank.processTransaction Bank.new
      { kind := .Withdrawal, client := 5, id := 1, amount := some 100 } = Bank.new := by
  decide

/-- C9: when a Resolve or Chargeback finds its transaction ID in the
active-dispute index, the entry is removed unconditionally — the removal
happens before the account lookup and the account operation, so it persists
even when the account is missing or `try_resolve`/`try_chargeback` fails,
and the dispute can never be retried. -/
theorem C9_dispute_entry_removed_unconditionally (b : Bank) (t old : Transaction)
    (hnd : (b.disputes.map Prod.fst).Nodup)
    (h : findA b.disputes t.id = some old) :
    findA (b.processResolve t).disputes t.id = none ∧
    findA (b.processChargeback t).disputes t.id = none := by
  rw [processResolve_disputes_eq h, processChargeback_disputes_eq h]
  exact ⟨findA_eraseA_self hnd, findA_eraseA_self hnd⟩

/-- Witness for C9: a bank whose dispute index holds transaction 1 but whose
accounts map is empty — the account operation necessarily fails, yet both a
Resolve and a Chargeback still remove the dispute entry. -/
theorem C9_dispute_entry_removed_unconditionally_witness :
    findA (Bank.processResolve
        { accounts := [], transactions := [],
          disputes := [(1, { kind := .Deposit, client := 1, id := 1, amount := some 5 })] }
        { kind := .Resolve, client := 1, id := 1, amount := none }).disputes 1 = none ∧
    findA (Bank.processChargeback
        { accounts := [], transactions := [],
          disputes := [(1, { kind := .Deposit, client := 1, id := 1, amount := some 5 })] }
        { kind := .Resolve, client := 1, id := 1, amount := none }).disputes 1 = none :=
  C9_dispute_entry_removed_unconditionally
    { accounts := [], transactions := [],
      disputes := [(1, { kind := .Deposit, client := 1, id := 1, amount := some 5 })] }
    { kind := .Resolve, client := 1, id := 1, amount := none }
    { kind := .Deposit, client := 1, id := 1, amount := some 5 }
    (by decide) (by decide)

/-- C3 is false of the code: after two deposits of 100 for client 1 and a
dispute of transaction 1, a *second* Dispute of transaction 1 is not
rejected — it subtracts `available` and adds `held` a second time
(`available` goes 100 → 0, `held` 100 → 200). -/
theorem C3_second_dispute_double_subtracts :
    (findA (Bank.processAll
        [{ kind := .Deposit, client := 1, id := 1, amount := some 100 },
         { kind := .Deposit, client := 1, id := 2, amount := some 100 },
         { kind := .Dispute, client := 1, id := 1, amount := none }]).accounts 1).map
        (fun a => (a.available, a.held)) = some (100, 100) ∧
    (findA (Bank.processAll
        [{ kind := .Deposit, client := 1, id := 1, amount := some 100 },
         { kind := .Deposit, client := 1, id := 2, amount := some 100 },
         { kind := .Dispute, client := 1, id := 1, amount := none },
         { kind := .Dispute, client := 1, id := 1, amount := none }]).accounts 1).map
        (fun a => (a.available, a.held)) = some (0, 200) := by
  decide

/-- C8: when a Dispute's transaction ID is found in the deposit history, the
account that is debited/held is the original deposit's client's account, and
every other client's account — in particular the one named by the dispute
record's own client field, when different — is untouched. -/
theorem C8_dispute_debits_deposit_client (b : Bank) (t old : Transaction)
    (acc acc' : Account)
    (hfind : findA b.transactions t.id = some old)
    (hacc : findA b.accounts old.client = some acc)
    (hok : acc.tryDispute (old.amount.getD 0) = .ok acc') :
    findA (b.processDispute t).accounts old.client = some acc' ∧
    ∀ c, c ≠ old.client → findA (b.processDispute t).accounts c = findA b.accounts c := by
  simp only [Bank.processDispute, hfind, hacc, hok]
  exact ⟨findA_insertA_self _ _ _, fun c hc => findA_insertA_ne _ _ _ _ hc⟩

/-- Witness for C8: client 1 deposits 50 as transaction 7; a dispute record
claiming client 99 but referencing transaction 7 holds client 1's funds and
leaves client 99's (non-existent) account untouched. -/
theorem C8_dispute_debits_deposit_client_witness :
    findA ((Bank.processAll
        [{ kind := .Deposit, client := 1, id := 7, amount := some 50 }]).processDispute
        { kind := .Dispute, client := 99, id := 7, amount := none }).accounts 1 =
      some { available := 0, held := 50, locked := false } ∧
    findA ((Bank.processAll
        [{ kind := .Deposit, client := 1, id := 7, amount := some 50 }]).processDispute
        { kind := .Dispute, client := 99, id := 7, amount := none }).accounts 99 =
      findA (Bank.processAll
        [{ kind := .Deposit, client := 1, id := 7, amount := some 50 }]).accounts 99 :=
  ⟨(C8_dispute_debits_deposit_client
      (Bank.processAll [{ kind := .Deposit, client := 1, id := 7, amount := some 50 }])
      { kind := .Dispute, client := 99, id := 7, amount := none }
      { kind := .Deposit, client := 1, id := 7, amount := some 50 }
      { available := 50, held := 0, locked := false }
      { available := 0, held := 50, locked := false }
      (by decide) (by decide) (by rfl)).1,
   (C8_dispute_debits_deposit_client
      (Bank.processAll [{ kind := .Deposit, client := 1, id := 7, amount := some 50 }])
      { kind := .Dispute, client := 99, id := 7, amount := none }
      { kind := .Deposit, client := 1, id := 7, amount := some 50 }
      { available := 50, held := 0, locked := false }
      { available := 0, held := 50, locked := false }
      (by decide) (by decide) (by rfl)).2 99 (by decide)⟩

/-- C2 as stated is false of the code: after client 3's deposit (tx 3,
amount 10000) is disputed and charged back, the account is locked with
`available = 0`; a subsequent Deposit for client 3 nevertheless credits the
account, changing `available` from 0 to 10000 (the source performs no lock
check on deposits). -/
theorem C2_locked_deposit_counterexample :
    (findA (Bank.processAll
        [{ kind := .Deposit, client := 3, id := 3, amount := some 10000 },
         { kind := .Dispute, client := 3, id := 3, amount := none },
         { kind := .Chargeback, client := 3, id := 3, amount := none }]).accounts 3).map
        (fun a => (a.available, a.locked)) = some (0, true) ∧
    (findA (Bank.processAll
        [{ kind := .Deposit, client := 3, id := 3, amount := some 10000 },
         { kind := .Dispute, client := 3, id := 3, amount := none },
         { kind := .Chargeback, client := 3, id := 3, amount := none },
         { kind := .Deposit, client := 3, id := 4, amount := some 10000 }]).accounts 3).map
        (fun a => (a.available, a.locked)) = some (10000, true) := by
  decide

/-- C2 amended: once an account is locked, a subsequent Withdrawal for that
client leaves the account entirely unchanged (available, held and locked),
and a subsequent Deposit never changes `held` and never unlocks the account;
a Deposit does, however, credit `available` even on a locked account. -/
theorem C2_locked_account (b : Bank) (t : Transaction) (a : Account)
    (ha : findA b.accounts t.client = some a) (hl : a.locked = true) :
    findA (b.processWithdrawl t).accounts t.client = some a ∧
    ∀ a', findA (b.processDeposit t).accounts t.client = some a' →
      a'.held = a.held ∧ a'.locked = true := by
  constructor
  · simp only [Bank.processWithdrawl, ha]
    cases hamt : t.amount with
    | none => exact ha
    | some x =>
        have hd : a.tryDebit x = .error .accountLocked := by
          simp [Account.tryDebit, hl]
        simp only [hd]
        exact ha
  · intro a' ha'
    cases hamt : t.amount with
    | none =>
        simp only [Bank.processDeposit, hamt] at ha'
        obtain rfl := Option.some.inj (ha.symm.trans ha')
        exact ⟨rfl, hl⟩
    | some x =>
        simp only [Bank.processDeposit, hamt, ha, Option.getD_some,
          findA_insertA_self] at ha'
        obtain rfl := Option.some.inj ha'.symm
        exact ⟨rfl, hl⟩

/-- Witness for C2 (amended): on the locked account of client 3
(post-chargeback state `⟨0, 0, locked⟩`), a withdrawal of 5 leaves the
account unchanged. -/
theorem C2_locked_account_witness :
    findA ((Bank.processAll
        [{ kind := .Deposit, client := 3, id := 3, amount := some 10000 },
         { kind := .Dispute, client := 3, id := 3, amount := none },
         { kind := .Chargeback, client := 3, id := 3, amount := none }]).processWithdrawl
        { kind := .Withdrawal, client := 3, id := 4, amount := some 5 }).accounts 3 =
      some { available := 0, held := 0, locked := true } :=
  (C2_locked_account
    (Bank.processAll
        [{ kind := .Deposit, client := 3, id := 3, amount := some 10000 },
         { kind := .Dispute, client := 3, id := 3, amount := none },
         { kind := .Chargeback, client := 3, id := 3, amount := none }])
    { kind := .Withdrawal, client := 3, id := 4, amount := some 5 }
    { available := 0, held := 0, locked := true }
    (by decide) rfl).1

/-- C5: processing a Deposit of X (client c, transaction tid), then a
Dispute of tid, then a Resolve of tid restores the account's available and
held balances exactly to their values just before the Dispute (i.e. just
after the Deposit), for any amount X and any starting bank whose account
for c, if it exists, has non-negative balances. -/
theorem C5_dispute_resolve_roundtrip (b : Bank) (c : AccountID)
    (tid : TransactionID) (X : Amount)
    (hacc : ∀ a, findA b.accounts c = some a → 0 ≤ a.available ∧ 0 ≤ a.held) :
    (findA (((b.processDeposit
        { kind := .Deposit, client := c, id := tid, amount := some X }).processDispute
        { kind := .Dispute, client := c, id := tid, amount := none }).processResolve
        { kind := .Resolve, client := c, id := tid, amount := none }).accounts c).map
      (fun a => (a.available, a.held)) =
    (findA (b.processDeposit
        { kind := .Deposit, client := c, id := tid, amount := some X }).accounts c).map
      (fun a => (a.available, a.held)) := by
  have h0 : 0 ≤ ((findA b.accounts c).getD Account.new).available ∧
      0 ≤ ((findA b.accounts c).getD Account.new).held := by
    cases hf : findA b.accounts c with
    | none => simp [Account.new]
    | some a => simpa using hacc a hf
  have hng1 : ¬ (((findA b.accounts c).getD Account.new).available + X < X) :=
    not_lt.mpr (le_add_of_nonneg_left h0.1)
  have hng2 : ¬ (((findA b.accounts c).getD Account.new).held + X < X) :=
    not_lt.mpr (le_add_of_nonneg_left h0.2)
  have hdep : (b.processDeposit
      { kind := .Deposit, client := c, id := tid, amount := some X }) =
      { b with
        accounts := insertA b.accounts c
          (((findA b.accounts c).getD Account.new).credit X),
        transactions := insertA b.transactions tid
          { kind := .Deposit, client := c, id := tid, amount := some X } } := rfl
  rw [hdep]
  simp only [Bank.processDispute, Bank.processResolve, findA_insertA_self,
    Option.getD_some, Account.credit, Account.tryDispute, Account.tryResolve,
    if_neg hng1, if_neg hng2, Option.map_some']
  simp only [Option.some.injEq, Prod.mk.injEq]
  constructor <;> ring

/-- Witness for C5: from a fresh bank, depositing 5 for client 1 (tx 1),
disputing tx 1 and resolving tx 1 leaves the account's
`(available, held)` at `(5, 0)` — exactly the post-deposit values. -/
theorem C5_dispute_resolve_roundtrip_witness :
    (findA (((Bank.new.processDeposit
        { kind := .Deposit, client := 1, id := 1, amount := some 5 }).processDispute
        { kind := .Dispute, client := 1, id := 1, amount := none }).processResolve
        { kind := .Resolve, client := 1, id := 1, amount := none }).accounts 1).map
      (fun a => (a.available, a.held)) =
    (findA (Bank.new.processDeposit
        { kind := .Deposit, client := 1, id := 1, amount := some 5 }).accounts 1).map
      (fun a => (a.available, a.held)) :=
  C5_dispute_resolve_roundtrip Bank.new 1 1 5
    (fun _ h => Option.noConfusion h)
